import Mathlib

set_option maxRecDepth 10000

/-!
Shallow embedding of `morpho/solver.py`, the PWE band-structure solver (classes
`Solver` and `Solver2D`).  Real numbers carried by numpy arrays are modelled by `ℚ`
(the solver performs only field operations up to the final `np.sqrt`, whose radicand
we keep exact and to which `Real.sqrt` is applied in the statements).  Python integers
are `ℤ`.  External collaborators (`Geometry`, the Brillouin-zone path, `convmat` from
`morpho.utils`, and `scipy.linalg.eigh`) are not part of `src/`; they are modelled
from the spec where their behaviour matters and kept abstract otherwise.
-/

/-- `np.arange(a, b)` with integer arguments: the list `a, a+1, …, b-1`
(empty when `b ≤ a`). -/
def npArange (a b : ℤ) : List ℤ :=
  (List.range (b - a).toNat).map (fun i : ℕ => a + (i : ℤ))

/-- The per-axis harmonic index range `np.arange(-(P // 2), P // 2 + 1)` built in
`Solver.run` and `Solver2D.run`.  Python `//` is floor division, `Int.fdiv`. -/
def symRange (P : ℤ) : List ℤ :=
  npArange (-(Int.fdiv P 2)) (Int.fdiv P 2 + 1)

/-- Number of retained harmonic indices along one axis of truncation order `P`. -/
def nHar (P : ℤ) : ℕ := (symRange P).length

/-- Total harmonic count for truncation orders `P, Q, R`; the 2D solver always uses
`R = 1` (it calls `convmat(…, self.P, self.Q, 1)`). -/
def N3 (P Q R : ℤ) : ℕ := nHar P * nHar Q * nHar R

/-- `np.meshgrid(p, q, r)` (default `indexing='xy'`) followed by C-order `.flatten()`
of each of the three outputs, zipped into triples: the arrays `P0, Q0, R0` have shape
`(len q, len p, len r)`, so the flattened enumeration iterates the `q` index outermost,
then the `p` index, then the `r` index; the `m`-th triple is
`(P0.flatten()[m], Q0.flatten()[m], R0.flatten()[m])`. -/
def meshgridFlat3 (p q r : List ℤ) : List (ℤ × ℤ × ℤ) :=
  q.flatMap fun b => p.flatMap fun a => r.map fun c => (a, b, c)

/-- `np.meshgrid(p, q)` (`indexing='xy'`) flattened, as in `Solver2D.run`: shape is
`(len q, len p)`, the `q` index iterates outermost. -/
def meshgridFlat2 (p q : List ℤ) : List (ℤ × ℤ) :=
  q.flatMap fun b => p.map fun a => (a, b)

/-- The flattened harmonic-triple enumeration of `Solver.run`. -/
def mesh3 (P Q R : ℤ) : List (ℤ × ℤ × ℤ) :=
  meshgridFlat3 (symRange P) (symRange Q) (symRange R)

/-- The flattened harmonic-pair enumeration of `Solver2D.run`. -/
def mesh2 (P Q : ℤ) : List (ℤ × ℤ) :=
  meshgridFlat2 (symRange P) (symRange Q)

lemma length_flatMap_const {α β : Type} (l : List α) (f : α → List β) (k : ℕ)
    (h : ∀ a, (f a).length = k) : (l.flatMap f).length = l.length * k := by
  induction l with
  | nil => simp
  | cons a t ih => simp only [List.flatMap_cons, List.length_append, h, ih,
      List.length_cons]; ring

lemma mesh3_length (P Q R : ℤ) : (mesh3 P Q R).length = N3 P Q R := by
  unfold mesh3 meshgridFlat3 N3 nHar
  rw [length_flatMap_const _ _ ((symRange P).length * (symRange R).length)]
  · ring
  · intro b
    rw [length_flatMap_const _ _ (symRange R).length]
    intro a
    exact List.length_map _ _

lemma mesh2_length (P Q : ℤ) : (mesh2 P Q).length = N3 P Q 1 := by
  unfold mesh2 meshgridFlat2 N3
  rw [length_flatMap_const _ _ (symRange P).length]
  · have h1 : nHar 1 = 1 := by decide
    rw [h1]; unfold nHar; ring
  · intro b
    exact List.length_map _ _

/-- The `m`-th harmonic index triple of the 3D enumeration. -/
def triple3 (P Q R : ℤ) (m : Fin (N3 P Q R)) : ℤ × ℤ × ℤ :=
  (mesh3 P Q R).get (Fin.cast (mesh3_length P Q R).symm m)

/-- The `m`-th harmonic index pair of the 2D enumeration. -/
def triple2 (P Q : ℤ) (m : Fin (N3 P Q 1)) : ℤ × ℤ :=
  (mesh2 P Q).get (Fin.cast (mesh2_length P Q).symm m)

/-- The matrix returned by a successful `convmat` call (see `convmat`). -/
def convmatOk (f : ℤ × ℤ × ℤ → ℚ) (P Q R : ℤ) :
    Matrix (Fin (N3 P Q R)) (Fin (N3 P Q R)) ℚ :=
  fun i j => f (triple3 P Q R i - triple3 P Q R j)

/-- Modelled from the spec: `convmat` is imported from `morpho.utils`, which is not
under `src/`.  The spec describes it as the Fourier convolution-matrix operator
`convmat(field, P, Q, R) -> ConvolutionMatrix`, deterministic, whose rows/columns are
ordered by the same harmonic enumeration as the reciprocal-lattice set (§4.1/§6); the
convolution matrix of multiplication by a periodic function has entry `(i, j)` equal to
the Fourier coefficient of the field at the difference of the `i`-th and `j`-th harmonic
index triples.  Real-space fields are accordingly modelled by their Fourier-coefficient
functions `ℤ × ℤ × ℤ → ℚ`.  Per spec §7, non-positive (or missing) truncation orders
are a precondition failure raised before any eigensolve. -/
def convmat (f : ℤ × ℤ × ℤ → ℚ) (P Q R : ℤ) :
    Except String (Matrix (Fin (N3 P Q R)) (Fin (N3 P Q R)) ℚ) :=
  if 0 < P ∧ 0 < Q ∧ 0 < R then Except.ok (convmatOk f P Q R)
  else Except.error "Truncation orders must be positive"

/-- Executable determinant over `ℚ` (cofactor expansion along the first row). -/
def detQ : {n : ℕ} → Matrix (Fin n) (Fin n) ℚ → ℚ
  | 0, _ => 1
  | n + 1, M =>
    ∑ j : Fin (n + 1), (-1) ^ (j : ℕ) * M 0 j * detQ (M.submatrix Fin.succ j.succAbove)

lemma detQ_eq_det : ∀ {n : ℕ} (M : Matrix (Fin n) (Fin n) ℚ), detQ M = M.det
  | 0, M => by rw [Matrix.det_fin_zero]; rfl
  | n + 1, M => by
    rw [Matrix.det_succ_row_zero, detQ]
    exact Finset.sum_congr rfl fun j _ => by rw [detQ_eq_det]

/-- Executable adjugate over `ℚ`. -/
def adjugateQ {n : ℕ} (M : Matrix (Fin n) (Fin n) ℚ) : Matrix (Fin n) (Fin n) ℚ :=
  fun i j => detQ (M.updateRow j (Pi.single i 1))

lemma adjugateQ_eq_adjugate {n : ℕ} (M : Matrix (Fin n) (Fin n) ℚ) :
    adjugateQ M = M.adjugate := by
  ext i j
  rw [Matrix.adjugate_apply]
  exact (detQ_eq_det _)

/-- The matrix returned by a successful `np.linalg.inv` call: this equals the true
matrix inverse whenever the determinant is nonzero (`invPayload_eq_inv`). -/
def invPayload {n : ℕ} (M : Matrix (Fin n) (Fin n) ℚ) : Matrix (Fin n) (Fin n) ℚ :=
  (detQ M)⁻¹ • adjugateQ M

lemma invPayload_eq_inv {n : ℕ} (M : Matrix (Fin n) (Fin n) ℚ) : invPayload M = M⁻¹ := by
  rw [Matrix.inv_def, Ring.inverse_eq_inv, invPayload, detQ_eq_det, adjugateQ_eq_adjugate]

/-- Modelled from the spec: `np.linalg.inv` (external numpy).  It raises
`LinAlgError("Singular matrix")` exactly when the matrix is singular, and otherwise
returns the inverse; per spec §4.2 a singular material matrix is a fatal
"singular material matrix" failure. -/
def npInv {n : ℕ} (M : Matrix (Fin n) (Fin n) ℚ) :
    Except String (Matrix (Fin n) (Fin n) ℚ) :=
  if detQ M = 0 then Except.error "Singular matrix" else Except.ok (invPayload M)

/-- `np.kron(np.eye(3), M)` for an `N×N` matrix `M`: entry `(i, j)` of the `3N×3N`
result is `eye(3)[i / N, j / N] * M[i % N, j % N]`. -/
def kron3 {N : ℕ} (M : Matrix (Fin N) (Fin N) ℚ) :
    Matrix (Fin (3 * N)) (Fin (3 * N)) ℚ :=
  fun i j =>
    have hN : 0 < N := by have h := i.isLt; omega
    if i.val / N = j.val / N then
      M ⟨i.val % N, Nat.mod_lt _ hN⟩ ⟨j.val % N, Nat.mod_lt _ hN⟩
    else 0

/-- `np.diag(v)`. -/
def npDiag {n : ℕ} (v : Fin n → ℚ) : Matrix (Fin n) (Fin n) ℚ :=
  Matrix.diagonal v

/-- `np.hstack((M1, M2, M3))` for three `N×N` blocks. -/
def hstack3 {N : ℕ} (M1 M2 M3 : Matrix (Fin N) (Fin N) ℚ) :
    Matrix (Fin N) (Fin (3 * N)) ℚ :=
  fun i j =>
    if h1 : j.val < N then M1 i ⟨j.val, h1⟩
    else if h2 : j.val < 2 * N then M2 i ⟨j.val - N, by omega⟩
    else M3 i ⟨j.val - 2 * N, by have h := j.isLt; omega⟩

/-- `np.vstack((M1, M2, M3))` for three `N×3N` blocks. -/
def vstack3 {N : ℕ} (M1 M2 M3 : Matrix (Fin N) (Fin (3 * N)) ℚ) :
    Matrix (Fin (3 * N)) (Fin (3 * N)) ℚ :=
  fun i j =>
    if h1 : i.val < N then M1 ⟨i.val, h1⟩ j
    else if h2 : i.val < 2 * N then M2 ⟨i.val - N, by omega⟩ j
    else M3 ⟨i.val - 2 * N, by have h := i.isLt; omega⟩ j

/-- The block matrix `K_V` assembled in `Solver.run`:
`np.vstack((np.hstack((0*KX, -KZ, KY)), np.hstack((KZ, 0*KY, -KX)), np.hstack((-KY, KX, 0*KZ))))`. -/
def KV3 {N : ℕ} (kx ky kz : Fin N → ℚ) : Matrix (Fin (3 * N)) (Fin (3 * N)) ℚ :=
  vstack3
    (hstack3 ((0 : ℚ) • npDiag kx) (-npDiag kz) (npDiag ky))
    (hstack3 (npDiag kz) ((0 : ℚ) • npDiag ky) (-npDiag kx))
    (hstack3 (-npDiag ky) (npDiag kx) ((0 : ℚ) • npDiag kz))

/-- The geometry collaborator (external, out of scope per spec §1/§6): it supplies the
real-space permittivity and permeability fields (modelled by Fourier coefficients, see
`convmat`) and the three reciprocal lattice basis vectors `_T1, _T2, _T3` read by
`Solver.run`.  Its `setup()` step is an idempotent finalization with no observable
effect on these fields, modelled as a no-op. -/
structure Geometry where
  eps_r : ℤ × ℤ × ℤ → ℚ
  mu_r : ℤ × ℤ × ℤ → ℚ
  T1 : Fin 3 → ℚ
  T2 : Fin 3 → ℚ
  T3 : Fin 3 → ℚ

/-- The Brillouin-zone path collaborator for the 3D solver: `beta_vec` has one column
per Bloch sample. -/
structure BZPath3 (M : ℕ) where
  beta_vec : Matrix (Fin 3) (Fin M) ℚ

/-- The path collaborator for the 2D solver: it additionally exposes the two in-plane
reciprocal basis vectors `T1, T2` read by `Solver2D.run`. -/
structure BZPath2 (M : ℕ) where
  T1 : Fin 2 → ℚ
  T2 : Fin 2 → ℚ
  beta_vec : Matrix (Fin 2) (Fin M) ℚ

/-- The accumulating state of a solver object: the lists `self.wn` and `self.modes`
initialized to `[]` in `__init__`.  Each `wn` entry stores the radicands
(`-(min λ 0)` in 3D, `max λ 0` in 2D) of the appended array; the source stores
`np.sqrt` of these element-wise, and since square roots are irrational the radicands
are kept exact here with `Real.sqrt` applied in the theorem statements. -/
structure BandState (n : ℕ) where
  wn : List (List ℚ)
  modes : List (Matrix (Fin n) (Fin n) ℚ)

/-- The state of a freshly constructed solver (`self.wn = []`, `self.modes = []`). -/
def initState (n : ℕ) : BandState n := ⟨[], []⟩

/-- Row `d`, column `m` of `G_k = T1[:,None]*P0.flatten() + T2[:,None]*Q0.flatten()
+ T3[:,None]*R0.flatten()` in `Solver.run`. -/
def Gk3 (geo : Geometry) (P Q R : ℤ) (d : Fin 3) (m : Fin (N3 P Q R)) : ℚ :=
  ((triple3 P Q R m).1 : ℚ) * geo.T1 d + ((triple3 P Q R m).2.1 : ℚ) * geo.T2 d +
    ((triple3 P Q R m).2.2 : ℚ) * geo.T3 d

/-- Row `d` of `k = beta[:, col, None] - G_k` for Bloch sample `col` (3D). -/
def kShift3 (geo : Geometry) {M : ℕ} (path : BZPath3 M) (P Q R : ℤ) (col : Fin M)
    (d : Fin 3) (m : Fin (N3 P Q R)) : ℚ :=
  path.beta_vec d col - Gk3 geo P Q R d m

/-- Row `d`, column `m` of `G_k = P0.flatten()*T1[:,None] + Q0.flatten()*T2[:,None]`
in `Solver2D.run`. -/
def Gk2 {M : ℕ} (path : BZPath2 M) (P Q : ℤ) (d : Fin 2) (m : Fin (N3 P Q 1)) : ℚ :=
  ((triple2 P Q m).1 : ℚ) * path.T1 d + ((triple2 P Q m).2 : ℚ) * path.T2 d

/-- Row `d` of `k = beta[:, col, None] - G_k` for Bloch sample `col` (2D). -/
def kShift2 {M : ℕ} (path : BZPath2 M) (P Q : ℤ) (col : Fin M) (d : Fin 2)
    (m : Fin (N3 P Q 1)) : ℚ :=
  path.beta_vec d col - Gk2 path P Q d m

/-- Radicand of the 3D frequency extraction `np.sqrt(-np.minimum(D, 0))`. -/
def radicand3 (lam : ℚ) : ℚ := -(min lam 0)

/-- Radicand of the 2D frequency extraction `np.sqrt(np.maximum(D, 0))`. -/
def radicand2 (lam : ℚ) : ℚ := max lam 0

/-- `Solver.run` (3D).  `eigh` is the external `scipy.linalg.eigh`, passed as an
oracle; its scipy contract (all eigenvalues ascending, B-orthonormal eigenvectors) is
assumed as hypotheses where a claim relies on it.  `self.geo.setup()` is an external
no-op finalization.  A raised Python exception is `Except.error`; on success the
updated accumulation state (`self.wn`, `self.modes`) is returned. -/
def Solver.run (geo : Geometry) {M : ℕ} (path : BZPath3 M) (P Q R : ℤ)
    (eigh : Matrix (Fin (3 * N3 P Q R)) (Fin (3 * N3 P Q R)) ℚ →
      Matrix (Fin (3 * N3 P Q R)) (Fin (3 * N3 P Q R)) ℚ →
      (Fin (3 * N3 P Q R) → ℚ) × Matrix (Fin (3 * N3 P Q R)) (Fin (3 * N3 P Q R)) ℚ)
    (st : BandState (3 * N3 P Q R)) : Except String (BandState (3 * N3 P Q R)) := do
  let eps_rc ← convmat geo.eps_r P Q R
  let mu_rc ← convmat geo.mu_r P Q R
  let eps_rk := kron3 eps_rc
  let mu_rci ← npInv mu_rc
  let mu_rki := kron3 mu_rci
  return (List.finRange M).foldl (fun acc col =>
    let K_V := KV3 (kShift3 geo path P Q R col 0) (kShift3 geo path P Q R col 1)
      (kShift3 geo path P Q R col 2)
    let A := K_V * mu_rki * K_V
    let B := eps_rk
    let DV := eigh A B
    { wn := acc.wn ++ [List.ofFn fun i => radicand3 (DV.1 i)],
      modes := acc.modes ++ [DV.2] }) st

/-- `Solver2D.run`.  Same conventions as `Solver.run`; `pol` is the polarization
string selector (`self.pol`), compared against the literal `"TM"` inside the loop. -/
def Solver2D.run (geo : Geometry) {M : ℕ} (path : BZPath2 M) (P Q : ℤ) (pol : String)
    (eigh : Matrix (Fin (N3 P Q 1)) (Fin (N3 P Q 1)) ℚ →
      Matrix (Fin (N3 P Q 1)) (Fin (N3 P Q 1)) ℚ →
      (Fin (N3 P Q 1) → ℚ) × Matrix (Fin (N3 P Q 1)) (Fin (N3 P Q 1)) ℚ)
    (st : BandState (N3 P Q 1)) : Except String (BandState (N3 P Q 1)) := do
  let eps_rc ← convmat geo.eps_r P Q 1
  let mu_rc ← convmat geo.mu_r P Q 1
  let mu_rci ← npInv mu_rc
  let eps_rci ← npInv eps_rc
  return (List.finRange M).foldl (fun acc col =>
    let KX := npDiag (kShift2 path P Q col 0)
    let KY := npDiag (kShift2 path P Q col 1)
    let AB :=
      if pol = "TM" then (KX * mu_rci * KX + KY * mu_rci * KY, eps_rc)
      else (KX * eps_rci * KX + KY * eps_rci * KY, mu_rc)
    let DV := eigh AB.1 AB.2
    { wn := acc.wn ++ [List.ofFn fun i => radicand2 (DV.1 i)],
      modes := acc.modes ++ [DV.2] }) st

/-- The `K_V` matrix assembled at Bloch sample `col` of `Solver.run`. -/
def KVcol (geo : Geometry) {M : ℕ} (path : BZPath3 M) (P Q R : ℤ) (col : Fin M) :
    Matrix (Fin (3 * N3 P Q R)) (Fin (3 * N3 P Q R)) ℚ :=
  KV3 (kShift3 geo path P Q R col 0) (kShift3 geo path P Q R col 1)
    (kShift3 geo path P Q R col 2)

/-- `mu_rki = np.kron(np.eye(3), np.linalg.inv(self.mu_rc))`, built once per run in
`Solver.run` before the per-sample loop (the `np.linalg.inv` result is `invPayload`). -/
def muRki (geo : Geometry) (P Q R : ℤ) :
    Matrix (Fin (3 * N3 P Q R)) (Fin (3 * N3 P Q R)) ℚ :=
  kron3 (invPayload (convmatOk geo.mu_r P Q R))

/-- `eps_rk = np.kron(np.eye(3), self.eps_rc)`, the right-hand-side matrix `B` of the
3D generalized eigenproblem, built once per run. -/
def Bmat3 (geo : Geometry) (P Q R : ℤ) :
    Matrix (Fin (3 * N3 P Q R)) (Fin (3 * N3 P Q R)) ℚ :=
  kron3 (convmatOk geo.eps_r P Q R)

/-- The left-hand-side matrix `A = K_V @ mu_rki @ K_V` assembled at Bloch sample
`col` of `Solver.run`. -/
def Amat3 (geo : Geometry) {M : ℕ} (path : BZPath3 M) (P Q R : ℤ) (col : Fin M) :
    Matrix (Fin (3 * N3 P Q R)) (Fin (3 * N3 P Q R)) ℚ :=
  KVcol geo path P Q R col * muRki geo P Q R * KVcol geo path P Q R col

/-- The TM-branch matrix `A = KX @ mu_rci @ KX + KY @ mu_rci @ KY` at sample `col`
of `Solver2D.run`. -/
def Amat2TM (geo : Geometry) {M : ℕ} (path : BZPath2 M) (P Q : ℤ) (col : Fin M) :
    Matrix (Fin (N3 P Q 1)) (Fin (N3 P Q 1)) ℚ :=
  npDiag (kShift2 path P Q col 0) * invPayload (convmatOk geo.mu_r P Q 1) *
      npDiag (kShift2 path P Q col 0) +
    npDiag (kShift2 path P Q col 1) * invPayload (convmatOk geo.mu_r P Q 1) *
      npDiag (kShift2 path P Q col 1)

/-- The TE-branch (else-branch) matrix `A = KX @ eps_rci @ KX + KY @ eps_rci @ KY` at
sample `col` of `Solver2D.run`. -/
def Amat2TE (geo : Geometry) {M : ℕ} (path : BZPath2 M) (P Q : ℤ) (col : Fin M) :
    Matrix (Fin (N3 P Q 1)) (Fin (N3 P Q 1)) ℚ :=
  npDiag (kShift2 path P Q col 0) * invPayload (convmatOk geo.eps_r P Q 1) *
      npDiag (kShift2 path P Q col 0) +
    npDiag (kShift2 path P Q col 1) * invPayload (convmatOk geo.eps_r P Q 1) *
      npDiag (kShift2 path P Q col 1)

/-- The pair `(A, B)` selected by the polarization branch at sample `col` of
`Solver2D.run`. -/
def AB2 (geo : Geometry) {M : ℕ} (path : BZPath2 M) (P Q : ℤ) (pol : String)
    (col : Fin M) :
    Matrix (Fin (N3 P Q 1)) (Fin (N3 P Q 1)) ℚ × Matrix (Fin (N3 P Q 1)) (Fin (N3 P Q 1)) ℚ :=
  if pol = "TM" then (Amat2TM geo path P Q col, convmatOk geo.eps_r P Q 1)
  else (Amat2TE geo path P Q col, convmatOk geo.mu_r P Q 1)

lemma okBind {ε α β : Type} (a : α) (f : α → Except ε β) :
    (Except.ok a : Except ε α) >>= f = f a := rfl

lemma convmat_pos (f : ℤ × ℤ × ℤ → ℚ) {P Q R : ℤ} (hP : 0 < P) (hQ : 0 < Q)
    (hR : 0 < R) : convmat f P Q R = Except.ok (convmatOk f P Q R) := by
  unfold convmat
  rw [if_pos ⟨hP, hQ, hR⟩]

lemma npInv_ok {n : ℕ} {M : Matrix (Fin n) (Fin n) ℚ} (h : detQ M ≠ 0) :
    npInv M = Except.ok (invPayload M) := by
  unfold npInv
  rw [if_neg h]

lemma foldl_band {n : ℕ} {α : Type} (l : List α) (f : α → List ℚ)
    (g : α → Matrix (Fin n) (Fin n) ℚ) (st : BandState n) :
    l.foldl (fun acc a => ⟨acc.wn ++ [f a], acc.modes ++ [g a]⟩) st
      = ⟨st.wn ++ l.map f, st.modes ++ l.map g⟩ := by
  induction l generalizing st with
  | nil => simp
  | cons a t ih => simp [List.foldl_cons, ih, List.map_cons]

/-- Characterization of a successful `Solver.run`: with positive orders and a
nonsingular permeability convolution matrix, the run appends, for each path column in
order, the radicand list and eigenvector matrix produced by `eigh` on the pair
`(Amat3, Bmat3)`. -/
lemma run3_ok (geo : Geometry) {M : ℕ} (path : BZPath3 M) (P Q R : ℤ)
    (eigh : Matrix (Fin (3 * N3 P Q R)) (Fin (3 * N3 P Q R)) ℚ →
      Matrix (Fin (3 * N3 P Q R)) (Fin (3 * N3 P Q R)) ℚ →
      (Fin (3 * N3 P Q R) → ℚ) × Matrix (Fin (3 * N3 P Q R)) (Fin (3 * N3 P Q R)) ℚ)
    (st : BandState (3 * N3 P Q R)) (hP : 0 < P) (hQ : 0 < Q) (hR : 0 < R)
    (hmu : detQ (convmatOk geo.mu_r P Q R) ≠ 0) :
    Solver.run geo path P Q R eigh st = Except.ok
      ⟨st.wn ++ (List.finRange M).map (fun col => List.ofFn fun i =>
          radicand3 ((eigh (Amat3 geo path P Q R col) (Bmat3 geo P Q R)).1 i)),
        st.modes ++ (List.finRange M).map (fun col =>
          (eigh (Amat3 geo path P Q R col) (Bmat3 geo P Q R)).2)⟩ := by
  unfold Solver.run
  rw [convmat_pos _ hP hQ hR, okBind, convmat_pos _ hP hQ hR, okBind, npInv_ok hmu,
    okBind]
  exact congrArg Except.ok (foldl_band (List.finRange M)
    (fun col => List.ofFn fun i =>
      radicand3 ((eigh (Amat3 geo path P Q R col) (Bmat3 geo P Q R)).1 i))
    (fun col => (eigh (Amat3 geo path P Q R col) (Bmat3 geo P Q R)).2) st)

/-- Characterization of a successful `Solver2D.run`: with positive orders and
nonsingular permeability and permittivity convolution matrices, the run appends, for
each path column in order, the results of `eigh` on the polarization-selected pair
`AB2`. -/
lemma run2_ok (geo : Geometry) {M : ℕ} (path : BZPath2 M) (P Q : ℤ) (pol : String)
    (eigh : Matrix (Fin (N3 P Q 1)) (Fin (N3 P Q 1)) ℚ →
      Matrix (Fin (N3 P Q 1)) (Fin (N3 P Q 1)) ℚ →
      (Fin (N3 P Q 1) → ℚ) × Matrix (Fin (N3 P Q 1)) (Fin (N3 P Q 1)) ℚ)
    (st : BandState (N3 P Q 1)) (hP : 0 < P) (hQ : 0 < Q)
    (hmu : detQ (convmatOk geo.mu_r P Q 1) ≠ 0)
    (heps : detQ (convmatOk geo.eps_r P Q 1) ≠ 0) :
    Solver2D.run geo path P Q pol eigh st = Except.ok
      ⟨st.wn ++ (List.finRange M).map (fun col => List.ofFn fun i =>
          radicand2 ((eigh (AB2 geo path P Q pol col).1 (AB2 geo path P Q pol col).2).1 i)),
        st.modes ++ (List.finRange M).map (fun col =>
          (eigh (AB2 geo path P Q pol col).1 (AB2 geo path P Q pol col).2).2)⟩ := by
  unfold Solver2D.run
  rw [convmat_pos _ hP hQ (by norm_num), okBind, convmat_pos _ hP hQ (by norm_num),
    okBind, npInv_ok hmu, okBind, npInv_ok heps, okBind]
  exact congrArg Except.ok (foldl_band (List.finRange M)
    (fun col => List.ofFn fun i =>
      radicand2 ((eigh (AB2 geo path P Q pol col).1 (AB2 geo path P Q pol col).2).1 i))
    (fun col => (eigh (AB2 geo path P Q pol col).1 (AB2 geo path P Q pol col).2).2) st)


/-- The curl operator exactly as the spec (§4.3) describes it: the `3N×3N` block
matrix with block sign pattern `[[0, -KZ, KY], [KZ, 0, -KX], [-KY, KX, 0]]`, where
`KX, KY, KZ` are the diagonal matrices of the components of the shifted wavevectors;
the block of entry `(i, j)` is `(i / N, j / N)` and within a block the entry is
nonzero only on the block diagonal `i % N = j % N`. -/
def curlSpec {N : ℕ} (kx ky kz : Fin N → ℚ) : Matrix (Fin (3 * N)) (Fin (3 * N)) ℚ :=
  fun i j =>
    have hN : 0 < N := by have h := i.isLt; omega
    let v : Fin N := ⟨i.val % N, Nat.mod_lt _ hN⟩
    if i.val % N = j.val % N then
      if i.val / N = 0 ∧ j.val / N = 1 then -(kz v)
      else if i.val / N = 0 ∧ j.val / N = 2 then ky v
      else if i.val / N = 1 ∧ j.val / N = 0 then kz v
      else if i.val / N = 1 ∧ j.val / N = 2 then -(kx v)
      else if i.val / N = 2 ∧ j.val / N = 0 then -(ky v)
      else if i.val / N = 2 ∧ j.val / N = 1 then kx v
      else 0
    else 0

lemma div_mod_block {N i : ℕ} (hN : 0 < N) (h : i < 3 * N) :
    (i / N = 0 ∧ i % N = i ∧ i < N) ∨
    (i / N = 1 ∧ i % N = i - N ∧ N ≤ i ∧ i < 2 * N) ∨
    (i / N = 2 ∧ i % N = i - 2 * N ∧ 2 * N ≤ i) := by
  rcases Nat.lt_or_ge i N with h1 | h1
  · exact Or.inl ⟨Nat.div_eq_of_lt h1, Nat.mod_eq_of_lt h1, h1⟩
  · rcases Nat.lt_or_ge i (2 * N) with h2 | h2
    · refine Or.inr (Or.inl ?_)
      have hi : i = (i - N) + N := by omega
      have hk : i - N < N := by omega
      refine ⟨?_, ?_, h1, h2⟩
      · rw [hi, Nat.add_div_right _ hN, Nat.div_eq_of_lt hk]
      · rw [hi, Nat.add_mod_right, Nat.mod_eq_of_lt hk]; omega
    · refine Or.inr (Or.inr ?_)
      have hi : i = (i - 2 * N) + N + N := by omega
      have hk : i - 2 * N < N := by omega
      refine ⟨?_, ?_, h2⟩
      · rw [hi, Nat.add_div_right _ hN, Nat.add_div_right _ hN, Nat.div_eq_of_lt hk]
      · rw [hi, Nat.add_mod_right, Nat.add_mod_right, Nat.mod_eq_of_lt hk]; omega

/-- The vstack/hstack assembly of `K_V` in `Solver.run` has exactly the spec's block
sign pattern. -/
lemma KV3_eq_curlSpec {N : ℕ} (kx ky kz : Fin N → ℚ) :
    KV3 kx ky kz = curlSpec kx ky kz := by
  funext i j
  have hN : 0 < N := by have h := i.isLt; omega
  unfold KV3 vstack3 hstack3 curlSpec npDiag
  rcases div_mod_block hN i.isLt with ⟨hd, hm, hlt⟩ | ⟨hd, hm, hge, hlt⟩ | ⟨hd, hm, hge⟩ <;>
    rcases div_mod_block hN j.isLt with ⟨hd2, hm2, hlt2⟩ | ⟨hd2, hm2, hge2, hlt2⟩ |
      ⟨hd2, hm2, hge2⟩
  · rw [dif_pos hlt, dif_pos hlt2, hd, hd2]
    simp [Matrix.smul_apply, Matrix.diagonal_apply]
  · rw [dif_pos hlt, dif_neg (by omega : ¬ (j : ℕ) < N), dif_pos hlt2, hd, hd2]
    simp [Matrix.neg_apply, Matrix.diagonal_apply, Fin.mk.injEq, hm, hm2]
    split_ifs <;> simp
  · rw [dif_pos hlt, dif_neg (by omega : ¬ (j : ℕ) < N),
      dif_neg (by omega : ¬ (j : ℕ) < 2 * N), hd, hd2]
    simp [Matrix.diagonal_apply, Fin.mk.injEq, hm, hm2]
  · rw [dif_neg (by omega : ¬ (i : ℕ) < N), dif_pos hlt, dif_pos hlt2, hd, hd2]
    simp [Matrix.diagonal_apply, Fin.mk.injEq, hm, hm2]
  · rw [dif_neg (by omega : ¬ (i : ℕ) < N), dif_pos hlt,
      dif_neg (by omega : ¬ (j : ℕ) < N), dif_pos hlt2, hd, hd2]
    simp [Matrix.smul_apply, Matrix.diagonal_apply]
  · rw [dif_neg (by omega : ¬ (i : ℕ) < N), dif_pos hlt,
      dif_neg (by omega : ¬ (j : ℕ) < N), dif_neg (by omega : ¬ (j : ℕ) < 2 * N), hd, hd2]
    simp [Matrix.neg_apply, Matrix.diagonal_apply, Fin.mk.injEq, hm, hm2]
    split_ifs <;> simp
  · rw [dif_neg (by omega : ¬ (i : ℕ) < N), dif_neg (by omega : ¬ (i : ℕ) < 2 * N),
      dif_pos hlt2, hd, hd2]
    simp [Matrix.neg_apply, Matrix.diagonal_apply, Fin.mk.injEq, hm, hm2]
    split_ifs <;> simp
  · rw [dif_neg (by omega : ¬ (i : ℕ) < N), dif_neg (by omega : ¬ (i : ℕ) < 2 * N),
      dif_neg (by omega : ¬ (j : ℕ) < N), dif_pos hlt2, hd, hd2]
    simp [Matrix.diagonal_apply, Fin.mk.injEq, hm, hm2]
  · rw [dif_neg (by omega : ¬ (i : ℕ) < N), dif_neg (by omega : ¬ (i : ℕ) < 2 * N),
      dif_neg (by omega : ¬ (j : ℕ) < N), dif_neg (by omega : ¬ (j : ℕ) < 2 * N), hd, hd2]
    simp [Matrix.smul_apply, Matrix.diagonal_apply]

/-- The assembled curl operator is skew-symmetric (given that its diagonal blocks are
diagonal matrices), reflecting the spec's antisymmetric block structure. -/
lemma curlSpec_transpose {N : ℕ} (kx ky kz : Fin N → ℚ) :
    Matrix.transpose (curlSpec kx ky kz) = -(curlSpec kx ky kz) := by
  funext i j
  have hN : 0 < N := by have h := i.isLt; omega
  rw [Matrix.transpose_apply, Matrix.neg_apply]
  unfold curlSpec
  by_cases hc : (i : ℕ) % N = (j : ℕ) % N
  · rcases div_mod_block hN i.isLt with ⟨hd, -, -⟩ | ⟨hd, -, -, -⟩ | ⟨hd, -, -⟩ <;>
      rcases div_mod_block hN j.isLt with ⟨hd2, -, -⟩ | ⟨hd2, -, -, -⟩ | ⟨hd2, -, -⟩ <;>
      simp [hd, hd2, hc]
  · have hc2 : ¬ (j : ℕ) % N = (i : ℕ) % N := fun h => hc h.symm
    simp [hc, hc2]

lemma mem_npArange {a b n : ℤ} : n ∈ npArange a b ↔ a ≤ n ∧ n < b := by
  unfold npArange
  simp only [List.mem_map, List.mem_range]
  constructor
  · rintro ⟨i, hi, rfl⟩
    omega
  · intro h
    exact ⟨(n - a).toNat, by omega, by omega⟩

lemma mem_symRange {P n : ℤ} : n ∈ symRange P ↔ -(Int.fdiv P 2) ≤ n ∧ n ≤ Int.fdiv P 2 := by
  unfold symRange
  rw [mem_npArange]
  omega

lemma mem_meshgridFlat3 {p q r : List ℤ} {t : ℤ × ℤ × ℤ} :
    t ∈ meshgridFlat3 p q r ↔ t.1 ∈ p ∧ t.2.1 ∈ q ∧ t.2.2 ∈ r := by
  unfold meshgridFlat3
  simp only [List.mem_flatMap, List.mem_map]
  constructor
  · rintro ⟨b, hb, a, ha, c, hc, rfl⟩
    exact ⟨ha, hb, hc⟩
  · rintro ⟨h1, h2, h3⟩
    exact ⟨t.2.1, h2, t.1, h1, t.2.2, h3, rfl⟩

lemma mem_meshgridFlat2 {p q : List ℤ} {t : ℤ × ℤ} :
    t ∈ meshgridFlat2 p q ↔ t.1 ∈ p ∧ t.2 ∈ q := by
  unfold meshgridFlat2
  simp only [List.mem_flatMap, List.mem_map]
  constructor
  · rintro ⟨b, hb, a, ha, rfl⟩
    exact ⟨ha, hb⟩
  · rintro ⟨h1, h2⟩
    exact ⟨t.2, h2, t.1, h1, rfl⟩

lemma nHar_eq (P : ℤ) : nHar P = (2 * Int.fdiv P 2 + 1).toNat := by
  unfold nHar symRange npArange
  rw [List.length_map, List.length_range]
  congr 1
  ring

/-- For a positive odd truncation order, the number of retained harmonics equals the
order itself. -/
lemma nHar_pos_odd {P : ℤ} (hP : 0 < P) (hodd : Odd P) : (nHar P : ℤ) = P := by
  rw [nHar_eq, Int.fdiv_eq_ediv _ (by omega)]
  obtain ⟨k, hk⟩ := hodd
  omega

/-- Per-sample entry appended to `self.wn` by `Solver.run` (radicands; see `BandState`). -/
def wn3At (geo : Geometry) {M : ℕ} (path : BZPath3 M) (P Q R : ℤ)
    (eigh : Matrix (Fin (3 * N3 P Q R)) (Fin (3 * N3 P Q R)) ℚ →
      Matrix (Fin (3 * N3 P Q R)) (Fin (3 * N3 P Q R)) ℚ →
      (Fin (3 * N3 P Q R) → ℚ) × Matrix (Fin (3 * N3 P Q R)) (Fin (3 * N3 P Q R)) ℚ)
    (col : Fin M) : List ℚ :=
  List.ofFn fun i => radicand3 ((eigh (Amat3 geo path P Q R col) (Bmat3 geo P Q R)).1 i)

/-- Per-sample entry appended to `self.modes` by `Solver.run`. -/
def modes3At (geo : Geometry) {M : ℕ} (path : BZPath3 M) (P Q R : ℤ)
    (eigh : Matrix (Fin (3 * N3 P Q R)) (Fin (3 * N3 P Q R)) ℚ →
      Matrix (Fin (3 * N3 P Q R)) (Fin (3 * N3 P Q R)) ℚ →
      (Fin (3 * N3 P Q R) → ℚ) × Matrix (Fin (3 * N3 P Q R)) (Fin (3 * N3 P Q R)) ℚ)
    (col : Fin M) : Matrix (Fin (3 * N3 P Q R)) (Fin (3 * N3 P Q R)) ℚ :=
  (eigh (Amat3 geo path P Q R col) (Bmat3 geo P Q R)).2

/-- Per-sample entry appended to `self.wn` by `Solver2D.run`. -/
def wn2At (geo : Geometry) {M : ℕ} (path : BZPath2 M) (P Q : ℤ) (pol : String)
    (eigh : Matrix (Fin (N3 P Q 1)) (Fin (N3 P Q 1)) ℚ →
      Matrix (Fin (N3 P Q 1)) (Fin (N3 P Q 1)) ℚ →
      (Fin (N3 P Q 1) → ℚ) × Matrix (Fin (N3 P Q 1)) (Fin (N3 P Q 1)) ℚ)
    (col : Fin M) : List ℚ :=
  List.ofFn fun i =>
    radicand2 ((eigh (AB2 geo path P Q pol col).1 (AB2 geo path P Q pol col).2).1 i)

/-- Per-sample entry appended to `self.modes` by `Solver2D.run`. -/
def modes2At (geo : Geometry) {M : ℕ} (path : BZPath2 M) (P Q : ℤ) (pol : String)
    (eigh : Matrix (Fin (N3 P Q 1)) (Fin (N3 P Q 1)) ℚ →
      Matrix (Fin (N3 P Q 1)) (Fin (N3 P Q 1)) ℚ →
      (Fin (N3 P Q 1) → ℚ) × Matrix (Fin (N3 P Q 1)) (Fin (N3 P Q 1)) ℚ)
    (col : Fin M) : Matrix (Fin (N3 P Q 1)) (Fin (N3 P Q 1)) ℚ :=
  (eigh (AB2 geo path P Q pol col).1 (AB2 geo path P Q pol col).2).2

/-- Fourier coefficients of the uniform unit field (a delta at harmonic 0): its
convolution matrix is an identity matrix, hence nonsingular. -/
def deltaField : ℤ × ℤ × ℤ → ℚ := fun t => if t = (0, 0, 0) then 1 else 0

/-- Concrete vacuum-like geometry used to evaluate the theorems. -/
def wGeo : Geometry :=
  { eps_r := deltaField
    mu_r := deltaField
    T1 := ![1, 0, 0]
    T2 := ![0, 1, 0]
    T3 := ![0, 0, 1] }

/-- Concrete geometry with identically zero permeability (singular convolution matrix). -/
def wGeoSing : Geometry :=
  { eps_r := deltaField
    mu_r := fun _ => 0
    T1 := ![1, 0, 0]
    T2 := ![0, 1, 0]
    T3 := ![0, 0, 1] }

/-- Concrete one-sample 3D path at the zone center `β = (0, 0, 0)`. -/
def wPath3 : BZPath3 1 :=
  { beta_vec := 0 }

/-- Concrete one-sample 2D path at the zone center `β = (0, 0)`. -/
def wPath2 : BZPath2 1 :=
  { T1 := ![1, 0]
    T2 := ![0, 1]
    beta_vec := 0 }

/-- Concrete eigensolver oracle for the 3D `N = 1` vacuum problem at `β = 0`:
there `A = 0` and `B = I`, so all eigenvalues are `0` (ascending) with
eigenvector matrix `I` (B-orthonormal). -/
def wEigh3 : Matrix (Fin (3 * N3 1 1 1)) (Fin (3 * N3 1 1 1)) ℚ →
    Matrix (Fin (3 * N3 1 1 1)) (Fin (3 * N3 1 1 1)) ℚ →
    (Fin (3 * N3 1 1 1) → ℚ) × Matrix (Fin (3 * N3 1 1 1)) (Fin (3 * N3 1 1 1)) ℚ :=
  fun _ _ => (fun _ => 0, 1)

/-- Concrete eigensolver oracle for the 2D `N = 1` vacuum problem at `β = 0`:
there `A = 0` and `B = [1]`, eigenvalue `0`, eigenvector `[1]`. -/
def wEigh2 : Matrix (Fin (N3 1 1 1)) (Fin (N3 1 1 1)) ℚ →
    Matrix (Fin (N3 1 1 1)) (Fin (N3 1 1 1)) ℚ →
    (Fin (N3 1 1 1) → ℚ) × Matrix (Fin (N3 1 1 1)) (Fin (N3 1 1 1)) ℚ :=
  fun _ _ => (fun _ => 0, 1)

lemma convmatOk_delta : convmatOk deltaField 1 1 1 = 1 := by
  funext i j
  have hN : N3 1 1 1 = 1 := rfl
  have hij : i = j := by
    apply Fin.ext
    have h1 : (i : ℕ) < 1 := lt_of_lt_of_eq i.isLt hN
    have h2 : (j : ℕ) < 1 := lt_of_lt_of_eq j.isLt hN
    omega
  subst hij
  rw [Matrix.one_apply_eq]
  unfold convmatOk deltaField
  rw [sub_self]
  simp

lemma wGeo_mu_det : detQ (convmatOk wGeo.mu_r 1 1 1) = 1 := by
  have h : convmatOk wGeo.mu_r 1 1 1 = 1 := convmatOk_delta
  rw [h, detQ_eq_det, Matrix.det_one]

lemma wGeo_eps_det : detQ (convmatOk wGeo.eps_r 1 1 1) = 1 := by
  have h : convmatOk wGeo.eps_r 1 1 1 = 1 := convmatOk_delta
  rw [h, detQ_eq_det, Matrix.det_one]

lemma invPayload_one {n : ℕ} : invPayload (1 : Matrix (Fin n) (Fin n) ℚ) = 1 := by
  unfold invPayload
  rw [detQ_eq_det, Matrix.det_one, adjugateQ_eq_adjugate, Matrix.adjugate_one, inv_one,
    one_smul]

lemma kron3_one {N : ℕ} : kron3 (1 : Matrix (Fin N) (Fin N) ℚ) = 1 := by
  funext i j
  unfold kron3
  simp only [Matrix.one_apply, Fin.mk.injEq]
  by_cases hd : (i : ℕ) / N = (j : ℕ) / N
  · by_cases hm : (i : ℕ) % N = (j : ℕ) % N
    · have hij : i = j := by
        apply Fin.ext
        have e1 := Nat.div_add_mod (i : ℕ) N
        rw [hd, hm] at e1
        exact e1.symm.trans (Nat.div_add_mod _ _)
      rw [if_pos hd, if_pos hm, if_pos hij]
    · have hij : i ≠ j := fun h => hm (by rw [h])
      rw [if_pos hd, if_neg hm, if_neg hij]
  · have hij : i ≠ j := fun h => hd (by rw [h])
    rw [if_neg hd, if_neg hij]

lemma muRki_wGeo : muRki wGeo 1 1 1 = 1 := by
  have h : convmatOk wGeo.mu_r 1 1 1 = 1 := convmatOk_delta
  unfold muRki
  rw [h, invPayload_one, kron3_one]

lemma Bmat3_wGeo : Bmat3 wGeo 1 1 1 = 1 := by
  have h : convmatOk wGeo.eps_r 1 1 1 = 1 := convmatOk_delta
  unfold Bmat3
  rw [h, kron3_one]

lemma triple3_111 (m : Fin (N3 1 1 1)) : triple3 1 1 1 m = (0, 0, 0) := by
  have hN : N3 1 1 1 = 1 := rfl
  have hm : m = ⟨0, by rw [hN]; omega⟩ := by
    apply Fin.ext
    have h1 : (m : ℕ) < 1 := lt_of_lt_of_eq m.isLt hN
    show (m : ℕ) = 0
    omega
  rw [hm]
  rfl

lemma kShift3_wPath3 (col : Fin 1) (d : Fin 3) (m : Fin (N3 1 1 1)) :
    kShift3 wGeo wPath3 1 1 1 col d m = 0 := by
  unfold kShift3 Gk3 wPath3
  rw [triple3_111]
  simp

lemma KV3_zero {N : ℕ} :
    KV3 (fun _ : Fin N => (0 : ℚ)) (fun _ => 0) (fun _ => 0) = 0 := by
  funext i j
  unfold KV3 vstack3 hstack3 npDiag
  have hdz : Matrix.diagonal (fun _ : Fin N => (0 : ℚ)) = 0 := Matrix.diagonal_zero
  split_ifs <;> simp [hdz]

lemma KVcol_wPath3 (col : Fin 1) : KVcol wGeo wPath3 1 1 1 col = 0 := by
  unfold KVcol
  have h0 : kShift3 wGeo wPath3 1 1 1 col 0 = fun _ => 0 :=
    funext fun m => kShift3_wPath3 col 0 m
  have h1 : kShift3 wGeo wPath3 1 1 1 col 1 = fun _ => 0 :=
    funext fun m => kShift3_wPath3 col 1 m
  have h2 : kShift3 wGeo wPath3 1 1 1 col 2 = fun _ => 0 :=
    funext fun m => kShift3_wPath3 col 2 m
  rw [h0, h1, h2, KV3_zero]

lemma Amat3_wPath3 (col : Fin 1) : Amat3 wGeo wPath3 1 1 1 col = 0 := by
  unfold Amat3
  rw [KVcol_wPath3, zero_mul, zero_mul]

/-- C2: for every Bloch sample, the curl operator assembled by `Solver.run` is the
`3N×3N` block matrix built from the diagonal matrices of the components of the shifted
wavevectors `k = β − G`, with exactly the sign pattern
`[[0, -KZ, KY], [KZ, 0, -KX], [-KY, KX, 0]]`, and it is skew-symmetric. -/
theorem run3_curl_operator_block_structure (geo : Geometry) {M : ℕ} (path : BZPath3 M)
    (P Q R : ℤ) (col : Fin M) :
    KVcol geo path P Q R col =
      curlSpec (kShift3 geo path P Q R col 0) (kShift3 geo path P Q R col 1)
        (kShift3 geo path P Q R col 2) ∧
    Matrix.transpose (KVcol geo path P Q R col) = -(KVcol geo path P Q R col) := by
  unfold KVcol
  refine ⟨KV3_eq_curlSpec _ _ _, ?_⟩
  rw [KV3_eq_curlSpec, curlSpec_transpose]

/-- C3: the 3D extraction `np.sqrt(-np.minimum(λ, 0))` equals `sqrt(max(0, −λ))`
(clip to the non-positive branch, negate, then root), so strictly positive eigenvalues
give wavenumber `0`; the 2D extraction `np.sqrt(np.maximum(λ, 0))` equals
`sqrt(max(0, λ))`.  Clipping happens before the root in both cases (the radicands are
the clipped values themselves). -/
theorem wavenumber_extraction_clip_then_root (lam : ℚ) :
    Real.sqrt ((radicand3 lam : ℚ) : ℝ) = Real.sqrt (((max 0 (-lam) : ℚ) : ℝ)) ∧
    (0 < lam → Real.sqrt ((radicand3 lam : ℚ) : ℝ) = 0) ∧
    Real.sqrt ((radicand2 lam : ℚ) : ℝ) = Real.sqrt (((max 0 lam : ℚ) : ℝ)) ∧
    radicand3 lam = max 0 (-lam) ∧ radicand2 lam = max 0 lam := by
  have h3 : radicand3 lam = max 0 (-lam) := by
    unfold radicand3
    rcases le_total lam 0 with h | h
    · rw [min_eq_left h, max_eq_right (by linarith)]
    · rw [min_eq_right h, max_eq_left (by linarith), neg_zero]
  have h2 : radicand2 lam = max 0 lam := max_comm lam 0
  refine ⟨by rw [h3], ?_, by rw [h2], h3, h2⟩
  intro hpos
  have hz : radicand3 lam = 0 := by rw [h3, max_eq_left (by linarith)]
  rw [hz]
  simp

/-- C3 witness: at the strictly positive eigenvalue `λ = 1` the 3D extracted
wavenumber is `0`. -/
theorem wavenumber_extraction_clip_then_root_witness :
    Real.sqrt ((radicand3 1 : ℚ) : ℝ) = 0 :=
  (wavenumber_extraction_clip_then_root 1).2.1 (by norm_num)

/-- `np.kron(np.eye(3), M)` is block-diagonal with the `3×3` identity as block
pattern: under the row-major index identification `Fin 3 × Fin N ≃ Fin (3*N)`, entry
`((a,b), (c,d))` equals `eye(3)[a,c] * M[b,d]`. -/
lemma kron3_block_apply {N : ℕ} (Mx : Matrix (Fin N) (Fin N) ℚ) (a c : Fin 3)
    (b d : Fin N) :
    kron3 Mx (finProdFinEquiv (a, b)) (finProdFinEquiv (c, d)) =
      (1 : Matrix (Fin 3) (Fin 3) ℚ) a c * Mx b d := by
  have hN : 0 < N := Fin.pos b
  have hv1 : ((finProdFinEquiv (a, b) : Fin (3 * N)) : ℕ) = (b : ℕ) + N * (a : ℕ) := rfl
  have hv2 : ((finProdFinEquiv (c, d) : Fin (3 * N)) : ℕ) = (d : ℕ) + N * (c : ℕ) := rfl
  unfold kron3
  simp only [hv1, hv2, Nat.add_mul_div_left _ _ hN, Nat.div_eq_of_lt b.isLt,
    Nat.div_eq_of_lt d.isLt, Nat.add_mul_mod_self_left, Nat.mod_eq_of_lt b.isLt,
    Nat.mod_eq_of_lt d.isLt, Matrix.one_apply, Nat.zero_add, Fin.eta, Fin.val_eq_val]
  by_cases hac : a = c
  · rw [if_pos hac, if_pos hac, one_mul]
  · rw [if_neg hac, if_neg hac, zero_mul]

/-- C1: for every Bloch sample (column of `beta_vec`), `Solver.run` hands the
eigensolver the pair `A = K_V · kron(I₃, mu_rc⁻¹) · K_V` (with `⁻¹` the true matrix
inverse of the permeability convolution matrix) and `B = kron(I₃, eps_rc)`; both
Kronecker expansions are the 3×3-identity block structure and are built once per run
(`Bmat3`/`muRki` do not depend on the sample); the appended results come from `eigh`
at exactly these matrices, and under scipy's `eigh` contract at these inputs the
eigenvalues are ascending and the eigenvectors are B-orthonormal and solve
`A·V = B·V·diag(D)`. -/
theorem run3_generalized_eigenproblem (geo : Geometry) {M : ℕ} (path : BZPath3 M)
    (P Q R : ℤ)
    (eigh : Matrix (Fin (3 * N3 P Q R)) (Fin (3 * N3 P Q R)) ℚ →
      Matrix (Fin (3 * N3 P Q R)) (Fin (3 * N3 P Q R)) ℚ →
      (Fin (3 * N3 P Q R) → ℚ) × Matrix (Fin (3 * N3 P Q R)) (Fin (3 * N3 P Q R)) ℚ)
    (hP : 0 < P) (hQ : 0 < Q) (hR : 0 < R)
    (hmu : detQ (convmatOk geo.mu_r P Q R) ≠ 0)
    (hasc : ∀ col : Fin M, ∀ i j, i ≤ j →
      (eigh (Amat3 geo path P Q R col) (Bmat3 geo P Q R)).1 i ≤
        (eigh (Amat3 geo path P Q R col) (Bmat3 geo P Q R)).1 j)
    (horth : ∀ col : Fin M,
      Matrix.transpose (modes3At geo path P Q R eigh col) * Bmat3 geo P Q R *
        modes3At geo path P Q R eigh col = 1)
    (heig : ∀ col : Fin M,
      Amat3 geo path P Q R col * modes3At geo path P Q R eigh col =
        Bmat3 geo P Q R * modes3At geo path P Q R eigh col *
          Matrix.diagonal (eigh (Amat3 geo path P Q R col) (Bmat3 geo P Q R)).1) :
    (∀ col : Fin M, Amat3 geo path P Q R col =
      KVcol geo path P Q R col * kron3 (convmatOk geo.mu_r P Q R)⁻¹ *
        KVcol geo path P Q R col) ∧
    (∀ (a c : Fin 3) (b d : Fin (N3 P Q R)),
      Bmat3 geo P Q R (finProdFinEquiv (a, b)) (finProdFinEquiv (c, d)) =
        (1 : Matrix (Fin 3) (Fin 3) ℚ) a c * convmatOk geo.eps_r P Q R b d ∧
      muRki geo P Q R (finProdFinEquiv (a, b)) (finProdFinEquiv (c, d)) =
        (1 : Matrix (Fin 3) (Fin 3) ℚ) a c * (convmatOk geo.mu_r P Q R)⁻¹ b d) ∧
    Solver.run geo path P Q R eigh (initState (3 * N3 P Q R)) = Except.ok
      ⟨(List.finRange M).map (wn3At geo path P Q R eigh),
        (List.finRange M).map (modes3At geo path P Q R eigh)⟩ ∧
    (∀ col : Fin M,
      (∀ i j, i ≤ j → (eigh (Amat3 geo path P Q R col) (Bmat3 geo P Q R)).1 i ≤
        (eigh (Amat3 geo path P Q R col) (Bmat3 geo P Q R)).1 j) ∧
      Matrix.transpose (modes3At geo path P Q R eigh col) * Bmat3 geo P Q R *
        modes3At geo path P Q R eigh col = 1 ∧
      Amat3 geo path P Q R col * modes3At geo path P Q R eigh col =
        Bmat3 geo P Q R * modes3At geo path P Q R eigh col *
          Matrix.diagonal (eigh (Amat3 geo path P Q R col) (Bmat3 geo P Q R)).1) := by
  refine ⟨?_, ?_, ?_, fun col => ⟨hasc col, horth col, heig col⟩⟩
  · intro col
    unfold Amat3 muRki
    rw [invPayload_eq_inv]
  · intro a c b d
    constructor
    · unfold Bmat3
      exact kron3_block_apply _ a c b d
    · unfold muRki
      rw [invPayload_eq_inv]
      exact kron3_block_apply _ a c b d
  · have h := run3_ok geo path P Q R eigh (initState (3 * N3 P Q R)) hP hQ hR hmu
    simpa [initState, wn3At, modes3At] using h

/-- C1 witness: the vacuum-like `P = Q = R = 1` configuration at `β = (0,0,1)` with
the concrete exact eigendecomposition `wEigh3` discharges every hypothesis. -/
theorem run3_generalized_eigenproblem_witness :
    Solver.run wGeo wPath3 1 1 1 wEigh3 (initState (3 * N3 1 1 1)) = Except.ok
      ⟨(List.finRange 1).map (wn3At wGeo wPath3 1 1 1 wEigh3),
        (List.finRange 1).map (modes3At wGeo wPath3 1 1 1 wEigh3)⟩ :=
  (run3_generalized_eigenproblem wGeo wPath3 1 1 1 wEigh3 (by norm_num) (by norm_num)
    (by norm_num) (by rw [wGeo_mu_det]; norm_num)
    (fun col i j h => le_refl 0)
    (fun col => by
      rw [show modes3At wGeo wPath3 1 1 1 wEigh3 col = 1 from rfl, Bmat3_wGeo,
        Matrix.transpose_one, one_mul, mul_one])
    (fun col => by
      simp only [show modes3At wGeo wPath3 1 1 1 wEigh3 col = 1 from rfl,
        show (wEigh3 (Amat3 wGeo wPath3 1 1 1 col) (Bmat3 wGeo 1 1 1)).1 =
          (fun _ => (0 : ℚ)) from rfl,
        show (wEigh3 0 1).1 = (fun _ => (0 : ℚ)) from rfl,
        Bmat3_wGeo, Amat3_wPath3,
        show Matrix.diagonal (fun _ => (0 : ℚ)) =
          (0 : Matrix (Fin (3 * N3 1 1 1)) (Fin (3 * N3 1 1 1)) ℚ) from
          Matrix.diagonal_zero,
        one_mul, mul_one, mul_zero, zero_mul])).2.2.1

/-- C4: in `Solver2D.run`, at every Bloch sample, the polarization selector `"TM"`
selects `A = KX·mu_rc⁻¹·KX + KY·mu_rc⁻¹·KY` with `B = eps_rc`, and ANY other string
takes the else branch `A = KX·eps_rc⁻¹·KX + KY·eps_rc⁻¹·KY` with `B = mu_rc`
(`⁻¹` the true matrix inverse); the appended results come from `eigh` at the selected
pair. -/
theorem run2_polarization_selection (geo : Geometry) {M : ℕ} (path : BZPath2 M)
    (P Q : ℤ) (pol : String)
    (eigh : Matrix (Fin (N3 P Q 1)) (Fin (N3 P Q 1)) ℚ →
      Matrix (Fin (N3 P Q 1)) (Fin (N3 P Q 1)) ℚ →
      (Fin (N3 P Q 1) → ℚ) × Matrix (Fin (N3 P Q 1)) (Fin (N3 P Q 1)) ℚ)
    (hP : 0 < P) (hQ : 0 < Q)
    (hmu : detQ (convmatOk geo.mu_r P Q 1) ≠ 0)
    (heps : detQ (convmatOk geo.eps_r P Q 1) ≠ 0) :
    (pol = "TM" → ∀ col : Fin M,
      AB2 geo path P Q pol col =
        (npDiag (kShift2 path P Q col 0) * (convmatOk geo.mu_r P Q 1)⁻¹ *
            npDiag (kShift2 path P Q col 0) +
          npDiag (kShift2 path P Q col 1) * (convmatOk geo.mu_r P Q 1)⁻¹ *
            npDiag (kShift2 path P Q col 1),
          convmatOk geo.eps_r P Q 1)) ∧
    (pol ≠ "TM" → ∀ col : Fin M,
      AB2 geo path P Q pol col =
        (npDiag (kShift2 path P Q col 0) * (convmatOk geo.eps_r P Q 1)⁻¹ *
            npDiag (kShift2 path P Q col 0) +
          npDiag (kShift2 path P Q col 1) * (convmatOk geo.eps_r P Q 1)⁻¹ *
            npDiag (kShift2 path P Q col 1),
          convmatOk geo.mu_r P Q 1)) ∧
    Solver2D.run geo path P Q pol eigh (initState (N3 P Q 1)) = Except.ok
      ⟨(List.finRange M).map (wn2At geo path P Q pol eigh),
        (List.finRange M).map (modes2At geo path P Q pol eigh)⟩ := by
  refine ⟨?_, ?_, ?_⟩
  · intro hTM col
    unfold AB2 Amat2TM
    rw [if_pos hTM, invPayload_eq_inv]
  · intro hTE col
    unfold AB2 Amat2TE
    rw [if_neg hTE, invPayload_eq_inv]
  · have h := run2_ok geo path P Q pol eigh (initState (N3 P Q 1)) hP hQ hmu heps
    simpa [initState, wn2At, modes2At] using h

/-- C4 witness: the polarization string `"TE"` (≠ `"TM"`) with the concrete `N = 1`
configuration discharges every hypothesis. -/
theorem run2_polarization_selection_witness :
    Solver2D.run wGeo wPath2 1 1 "TE" wEigh2 (initState (N3 1 1 1)) = Except.ok
      ⟨(List.finRange 1).map (wn2At wGeo wPath2 1 1 "TE" wEigh2),
        (List.finRange 1).map (modes2At wGeo wPath2 1 1 "TE" wEigh2)⟩ :=
  (run2_polarization_selection wGeo wPath2 1 1 "TE" wEigh2 (by norm_num) (by norm_num)
    (by rw [wGeo_mu_det]; norm_num) (by rw [wGeo_eps_det]; norm_num)).2.2

/-- C5: the reciprocal-lattice set built once per run consists of exactly the integer
linear combinations `n1·T1 + n2·T2 (+ n3·T3)` whose integer indices range over the
symmetric intervals `-(order // 2) … order // 2`, enumerated in the fixed
meshgrid-flatten order (`triple3`/`triple2`); every Bloch sample's shifted wavevector
uses the same `G_k`, only the `β` column changes. -/
theorem reciprocal_lattice_enumeration (geo : Geometry) {M M2 : ℕ}
    (path : BZPath3 M) (path2 : BZPath2 M2) (P Q R : ℤ) :
    (∀ m : Fin (N3 P Q R),
      (∀ d, Gk3 geo P Q R d m =
        ((triple3 P Q R m).1 : ℚ) * geo.T1 d + ((triple3 P Q R m).2.1 : ℚ) * geo.T2 d +
          ((triple3 P Q R m).2.2 : ℚ) * geo.T3 d) ∧
      -(Int.fdiv P 2) ≤ (triple3 P Q R m).1 ∧ (triple3 P Q R m).1 ≤ Int.fdiv P 2 ∧
      -(Int.fdiv Q 2) ≤ (triple3 P Q R m).2.1 ∧ (triple3 P Q R m).2.1 ≤ Int.fdiv Q 2 ∧
      -(Int.fdiv R 2) ≤ (triple3 P Q R m).2.2 ∧ (triple3 P Q R m).2.2 ≤ Int.fdiv R 2) ∧
    (∀ n1 n2 n3 : ℤ,
      -(Int.fdiv P 2) ≤ n1 → n1 ≤ Int.fdiv P 2 →
      -(Int.fdiv Q 2) ≤ n2 → n2 ≤ Int.fdiv Q 2 →
      -(Int.fdiv R 2) ≤ n3 → n3 ≤ Int.fdiv R 2 →
      ∃ m : Fin (N3 P Q R), triple3 P Q R m = (n1, n2, n3)) ∧
    (∀ col : Fin M, ∀ d m, kShift3 geo path P Q R col d m =
      path.beta_vec d col - Gk3 geo P Q R d m) ∧
    (∀ m : Fin (N3 P Q 1),
      (∀ d, Gk2 path2 P Q d m =
        ((triple2 P Q m).1 : ℚ) * path2.T1 d + ((triple2 P Q m).2 : ℚ) * path2.T2 d) ∧
      -(Int.fdiv P 2) ≤ (triple2 P Q m).1 ∧ (triple2 P Q m).1 ≤ Int.fdiv P 2 ∧
      -(Int.fdiv Q 2) ≤ (triple2 P Q m).2 ∧ (triple2 P Q m).2 ≤ Int.fdiv Q 2) ∧
    (∀ n1 n2 : ℤ,
      -(Int.fdiv P 2) ≤ n1 → n1 ≤ Int.fdiv P 2 →
      -(Int.fdiv Q 2) ≤ n2 → n2 ≤ Int.fdiv Q 2 →
      ∃ m : Fin (N3 P Q 1), triple2 P Q m = (n1, n2)) ∧
    (∀ col : Fin M2, ∀ d m, kShift2 path2 P Q col d m =
      path2.beta_vec d col - Gk2 path2 P Q d m) := by
  refine ⟨?_, ?_, fun col d m => rfl, ?_, ?_, fun col d m => rfl⟩
  · intro m
    refine ⟨fun d => rfl, ?_⟩
    have hmem : triple3 P Q R m ∈ mesh3 P Q R := List.get_mem _ _ _
    have h2 := mem_meshgridFlat3.mp hmem
    have b1 := mem_symRange.mp h2.1
    have b2 := mem_symRange.mp h2.2.1
    have b3 := mem_symRange.mp h2.2.2
    exact ⟨b1.1, b1.2, b2.1, b2.2, b3.1, b3.2⟩
  · intro n1 n2 n3 h1 h2 h3 h4 h5 h6
    have hmem : ((n1, n2, n3) : ℤ × ℤ × ℤ) ∈ mesh3 P Q R :=
      mem_meshgridFlat3.mpr
        ⟨mem_symRange.mpr ⟨h1, h2⟩, mem_symRange.mpr ⟨h3, h4⟩, mem_symRange.mpr ⟨h5, h6⟩⟩
    obtain ⟨k, hk⟩ := List.mem_iff_get.mp hmem
    exact ⟨Fin.cast (mesh3_length P Q R) k, hk⟩
  · intro m
    refine ⟨fun d => rfl, ?_⟩
    have hmem : triple2 P Q m ∈ mesh2 P Q := List.get_mem _ _ _
    have h2 := mem_meshgridFlat2.mp hmem
    have b1 := mem_symRange.mp h2.1
    have b2 := mem_symRange.mp h2.2
    exact ⟨b1.1, b1.2, b2.1, b2.2⟩
  · intro n1 n2 h1 h2 h3 h4
    have hmem : ((n1, n2) : ℤ × ℤ) ∈ mesh2 P Q :=
      mem_meshgridFlat2.mpr ⟨mem_symRange.mpr ⟨h1, h2⟩, mem_symRange.mpr ⟨h3, h4⟩⟩
    obtain ⟨k, hk⟩ := List.mem_iff_get.mp hmem
    exact ⟨Fin.cast (mesh2_length P Q) k, hk⟩

/-- C5 witness: for `P = Q = R = 1` the index triple `(0, 0, 0)` lies in the
symmetric ranges and is enumerated. -/
theorem reciprocal_lattice_enumeration_witness :
    ∃ m : Fin (N3 1 1 1), triple3 1 1 1 m = (0, 0, 0) :=
  (reciprocal_lattice_enumeration wGeo wPath3 wPath2 1 1 1).2.1 0 0 0
    (by decide) (by decide) (by decide) (by decide) (by decide) (by decide)

lemma N3_toNat {P Q R : ℤ} (hP : 0 < P) (hQ : 0 < Q) (hR : 0 < R)
    (hoP : Odd P) (hoQ : Odd Q) (hoR : Odd R) : N3 P Q R = (P * Q * R).toNat := by
  have h : ((N3 P Q R : ℕ) : ℤ) = P * Q * R := by
    unfold N3
    push_cast
    rw [nHar_pos_odd hP hoP, nHar_pos_odd hQ hoQ, nHar_pos_odd hR hoR]
  rw [← h, Int.toNat_natCast]

lemma N3_toNat2 {P Q : ℤ} (hP : 0 < P) (hQ : 0 < Q) (hoP : Odd P) (hoQ : Odd Q) :
    N3 P Q 1 = (P * Q).toNat := by
  have h : ((N3 P Q 1 : ℕ) : ℤ) = P * Q := by
    unfold N3
    push_cast
    rw [nHar_pos_odd hP hoP, nHar_pos_odd hQ hoQ,
      show ((nHar 1 : ℕ) : ℤ) = 1 from by decide, mul_one]
  rw [← h, Int.toNat_natCast]

/-- C6: every processed Bloch sample appends exactly `3·P·Q·R` wavenumbers in the 3D
solver and `P·Q` in the 2D solver, for positive odd truncation orders. -/
theorem band_count_per_sample (geo : Geometry) {M M2 : ℕ} (path : BZPath3 M)
    (path2 : BZPath2 M2) (P Q R : ℤ) (pol : String)
    (eigh3 : Matrix (Fin (3 * N3 P Q R)) (Fin (3 * N3 P Q R)) ℚ →
      Matrix (Fin (3 * N3 P Q R)) (Fin (3 * N3 P Q R)) ℚ →
      (Fin (3 * N3 P Q R) → ℚ) × Matrix (Fin (3 * N3 P Q R)) (Fin (3 * N3 P Q R)) ℚ)
    (eigh2 : Matrix (Fin (N3 P Q 1)) (Fin (N3 P Q 1)) ℚ →
      Matrix (Fin (N3 P Q 1)) (Fin (N3 P Q 1)) ℚ →
      (Fin (N3 P Q 1) → ℚ) × Matrix (Fin (N3 P Q 1)) (Fin (N3 P Q 1)) ℚ)
    (hP : 0 < P) (hQ : 0 < Q) (hR : 0 < R) (hoP : Odd P) (hoQ : Odd Q) (hoR : Odd R)
    (hmu3 : detQ (convmatOk geo.mu_r P Q R) ≠ 0)
    (hmu2 : detQ (convmatOk geo.mu_r P Q 1) ≠ 0)
    (heps2 : detQ (convmatOk geo.eps_r P Q 1) ≠ 0) :
    (∃ st, Solver.run geo path P Q R eigh3 (initState (3 * N3 P Q R)) = Except.ok st ∧
      st.wn.length = M ∧ ∀ w ∈ st.wn, w.length = 3 * (P * Q * R).toNat) ∧
    (∃ st, Solver2D.run geo path2 P Q pol eigh2 (initState (N3 P Q 1)) = Except.ok st ∧
      st.wn.length = M2 ∧ ∀ w ∈ st.wn, w.length = (P * Q).toNat) := by
  constructor
  · refine ⟨_, run3_ok geo path P Q R eigh3 (initState (3 * N3 P Q R)) hP hQ hR hmu3, ?_, ?_⟩
    · simp [initState]
    · intro w hw
      simp only [initState, List.nil_append, List.mem_map] at hw
      obtain ⟨col, -, hcol⟩ := hw
      rw [← hcol, List.length_ofFn, N3_toNat hP hQ hR hoP hoQ hoR]
  · refine ⟨_, run2_ok geo path2 P Q pol eigh2 (initState (N3 P Q 1)) hP hQ hmu2 heps2, ?_, ?_⟩
    · simp [initState]
    · intro w hw
      simp only [initState, List.nil_append, List.mem_map] at hw
      obtain ⟨col, -, hcol⟩ := hw
      rw [← hcol, List.length_ofFn, N3_toNat2 hP hQ hoP hoQ]

/-- C6 witness: the concrete `P = Q = R = 1` configuration (odd positive orders,
nonsingular materials) discharges every hypothesis. -/
theorem band_count_per_sample_witness :
    ∃ st, Solver.run wGeo wPath3 1 1 1 wEigh3 (initState (3 * N3 1 1 1)) = Except.ok st ∧
      st.wn.length = 1 ∧ ∀ w ∈ st.wn, w.length = 3 * ((1 : ℤ) * 1 * 1).toNat :=
  (band_count_per_sample wGeo wPath3 wPath2 1 1 1 "TM" wEigh3 wEigh2
    (by norm_num) (by norm_num) (by norm_num)
    ⟨0, by norm_num⟩ ⟨0, by norm_num⟩ ⟨0, by norm_num⟩
    (by rw [wGeo_mu_det]; norm_num) (by rw [wGeo_mu_det]; norm_num)
    (by rw [wGeo_eps_det]; norm_num)).1

lemma getElem_append_map_finRange {α : Type} (l0 : List α) {M : ℕ} (f : Fin M → α)
    (i : Fin M) :
    (l0 ++ (List.finRange M).map f)[l0.length + (i : ℕ)]? = some (f i) := by
  rw [List.getElem?_append_right (by omega)]
  have hidx : l0.length + (i : ℕ) - l0.length = (i : ℕ) := by omega
  rw [hidx, List.getElem?_map]
  have hlen : (i : ℕ) < (List.finRange M).length := by
    rw [List.length_finRange]
    exact i.isLt
  rw [List.getElem?_eq_getElem hlen]
  have hfr : (List.finRange M)[(i : ℕ)] = i := by
    have h := List.get_finRange (n := M) (i := (i : ℕ)) hlen
    simp only [List.get_eq_getElem] at h
    rw [h]
  rw [hfr]
  rfl

/-- C7: a successful run appends exactly one entry per Bloch sample, strictly in path
order, onto the prior list contents (which stay a prefix, so the sequences only grow):
the `(st0.wn.length + i)`-th entry of the final sequences is the result computed from
the `i`-th column of the path's `beta_vec`. -/
theorem accumulation_in_path_order (geo : Geometry) {M M2 : ℕ} (path : BZPath3 M)
    (path2 : BZPath2 M2) (P Q R : ℤ) (pol : String)
    (eigh3 : Matrix (Fin (3 * N3 P Q R)) (Fin (3 * N3 P Q R)) ℚ →
      Matrix (Fin (3 * N3 P Q R)) (Fin (3 * N3 P Q R)) ℚ →
      (Fin (3 * N3 P Q R) → ℚ) × Matrix (Fin (3 * N3 P Q R)) (Fin (3 * N3 P Q R)) ℚ)
    (eigh2 : Matrix (Fin (N3 P Q 1)) (Fin (N3 P Q 1)) ℚ →
      Matrix (Fin (N3 P Q 1)) (Fin (N3 P Q 1)) ℚ →
      (Fin (N3 P Q 1) → ℚ) × Matrix (Fin (N3 P Q 1)) (Fin (N3 P Q 1)) ℚ)
    (st0 : BandState (3 * N3 P Q R)) (st0s : BandState (N3 P Q 1))
    (hP : 0 < P) (hQ : 0 < Q) (hR : 0 < R)
    (hmu3 : detQ (convmatOk geo.mu_r P Q R) ≠ 0)
    (hmu2 : detQ (convmatOk geo.mu_r P Q 1) ≠ 0)
    (heps2 : detQ (convmatOk geo.eps_r P Q 1) ≠ 0) :
    (∃ st, Solver.run geo path P Q R eigh3 st0 = Except.ok st ∧
      st.wn = st0.wn ++ (List.finRange M).map (wn3At geo path P Q R eigh3) ∧
      st.modes = st0.modes ++ (List.finRange M).map (modes3At geo path P Q R eigh3) ∧
      st.wn.length = st0.wn.length + M ∧
      (∀ i : Fin M,
        st.wn[st0.wn.length + (i : ℕ)]? = some (wn3At geo path P Q R eigh3 i) ∧
        st.modes[st0.modes.length + (i : ℕ)]? =
          some (modes3At geo path P Q R eigh3 i))) ∧
    (∃ st, Solver2D.run geo path2 P Q pol eigh2 st0s = Except.ok st ∧
      st.wn = st0s.wn ++ (List.finRange M2).map (wn2At geo path2 P Q pol eigh2) ∧
      st.modes = st0s.modes ++ (List.finRange M2).map (modes2At geo path2 P Q pol eigh2) ∧
      st.wn.length = st0s.wn.length + M2 ∧
      (∀ i : Fin M2,
        st.wn[st0s.wn.length + (i : ℕ)]? = some (wn2At geo path2 P Q pol eigh2 i) ∧
        st.modes[st0s.modes.length + (i : ℕ)]? =
          some (modes2At geo path2 P Q pol eigh2 i))) := by
  constructor
  · refine ⟨_, run3_ok geo path P Q R eigh3 st0 hP hQ hR hmu3, rfl, rfl, by simp, ?_⟩
    intro i
    exact ⟨getElem_append_map_finRange _ _ i, getElem_append_map_finRange _ _ i⟩
  · refine ⟨_, run2_ok geo path2 P Q pol eigh2 st0s hP hQ hmu2 heps2, rfl, rfl, by simp, ?_⟩
    intro i
    exact ⟨getElem_append_map_finRange _ _ i, getElem_append_map_finRange _ _ i⟩

/-- C7 witness: concrete one-sample run starting from the empty accumulated state. -/
theorem accumulation_in_path_order_witness :
    ∃ st, Solver.run wGeo wPath3 1 1 1 wEigh3 (initState (3 * N3 1 1 1)) = Except.ok st ∧
      st.wn = (initState (3 * N3 1 1 1)).wn ++
        (List.finRange 1).map (wn3At wGeo wPath3 1 1 1 wEigh3) ∧
      st.modes = (initState (3 * N3 1 1 1)).modes ++
        (List.finRange 1).map (modes3At wGeo wPath3 1 1 1 wEigh3) ∧
      st.wn.length = (initState (3 * N3 1 1 1)).wn.length + 1 ∧
      (∀ i : Fin 1,
        st.wn[(initState (3 * N3 1 1 1)).wn.length + (i : ℕ)]? =
          some (wn3At wGeo wPath3 1 1 1 wEigh3 i) ∧
        st.modes[(initState (3 * N3 1 1 1)).modes.length + (i : ℕ)]? =
          some (modes3At wGeo wPath3 1 1 1 wEigh3 i)) :=
  (accumulation_in_path_order wGeo wPath3 wPath2 1 1 1 "TM" wEigh3 wEigh2
    (initState (3 * N3 1 1 1)) (initState (N3 1 1 1)) (by norm_num) (by norm_num)
    (by norm_num) (by rw [wGeo_mu_det]; norm_num) (by rw [wGeo_mu_det]; norm_num)
    (by rw [wGeo_eps_det]; norm_num)).1

/-- C8: if the permeability convolution matrix is singular, both runs raise the
singular-matrix failure during the material-matrix inversion — uniformly in the
eigensolver oracle and in the accumulated state, i.e. before any per-sample
eigensolve, producing no partial results (an error leaves `self.wn`/`self.modes`
untouched, so a fresh solver's sequences remain empty). -/
theorem singular_permeability_fails_before_eigensolve (geo : Geometry) {M M2 : ℕ}
    (path : BZPath3 M) (path2 : BZPath2 M2) (P Q R : ℤ) (pol : String)
    (hP : 0 < P) (hQ : 0 < Q) (hR : 0 < R)
    (hmu3 : detQ (convmatOk geo.mu_r P Q R) = 0)
    (hmu2 : detQ (convmatOk geo.mu_r P Q 1) = 0) :
    (∀ eigh st, Solver.run geo path P Q R eigh st = Except.error "Singular matrix") ∧
    (∀ eigh st, Solver2D.run geo path2 P Q pol eigh st =
      Except.error "Singular matrix") := by
  constructor
  · intro eigh st
    unfold Solver.run
    rw [convmat_pos _ hP hQ hR, okBind, convmat_pos _ hP hQ hR, okBind]
    unfold npInv
    rw [if_pos hmu3]
    rfl
  · intro eigh st
    unfold Solver2D.run
    rw [convmat_pos _ hP hQ (by norm_num), okBind, convmat_pos _ hP hQ (by norm_num),
      okBind]
    unfold npInv
    rw [if_pos hmu2]
    rfl

lemma wGeoSing_mu_det : detQ (convmatOk wGeoSing.mu_r 1 1 1) = 0 := by
  have h : convmatOk wGeoSing.mu_r 1 1 1 = 0 := funext fun i => funext fun j => rfl
  rw [h, detQ_eq_det, Matrix.det_zero ⟨(0 : Fin 1)⟩]

/-- C8 witness: the identically-zero permeability field gives a singular convolution
matrix and the 3D run errors with no partial results, for the concrete oracle and the
empty initial state. -/
theorem singular_permeability_fails_before_eigensolve_witness :
    Solver.run wGeoSing wPath3 1 1 1 wEigh3 (initState (3 * N3 1 1 1)) =
      Except.error "Singular matrix" :=
  (singular_permeability_fails_before_eigensolve wGeoSing wPath3 wPath2 1 1 1 "TM"
    (by norm_num) (by norm_num) (by norm_num) wGeoSing_mu_det wGeoSing_mu_det).1
    wEigh3 (initState (3 * N3 1 1 1))

/-- Constructor default of `Solver.__init__` for an omitted truncation order `P`. -/
def defaultP : ℤ := 1

/-- Constructor default of `Solver.__init__` for an omitted truncation order `Q`. -/
def defaultQ : ℤ := 1

/-- Constructor default of `Solver.__init__` for an omitted truncation order `R`. -/
def defaultR : ℤ := 1

/-- `Except.isOk`-style observer. -/
def isOkE {ε α : Type} : Except ε α → Bool
  | Except.ok _ => true
  | Except.error _ => false

/-- C9 counterexample: a solver constructed with all truncation orders MISSING gets
the constructor defaults `P = Q = R = 1`, and its run on a valid geometry SUCCEEDS —
no precondition failure is raised — refuting the claim's "(or missing)" clause. -/
theorem default_orders_run_succeeds :
    isOkE (Solver.run wGeo wPath3 defaultP defaultQ defaultR wEigh3
      (initState (3 * N3 defaultP defaultQ defaultR))) = true := by
  rw [run3_ok wGeo wPath3 defaultP defaultQ defaultR wEigh3
    (initState (3 * N3 defaultP defaultQ defaultR)) (by norm_num [defaultP])
    (by norm_num [defaultQ]) (by norm_num [defaultR])
    (by rw [show detQ (convmatOk wGeo.mu_r defaultP defaultQ defaultR) = 1 from
      wGeo_mu_det]; norm_num)]
  rfl

/-- C9 amended: for every solver whose constructed truncation order is non-positive,
the run fails fast — uniformly in the eigensolver oracle and accumulated state, hence
before any eigensolve — with the precondition failure modelled from the spec for the
external `convmat`. -/
theorem nonpositive_orders_fail_fast (geo : Geometry) {M M2 : ℕ} (path : BZPath3 M)
    (path2 : BZPath2 M2) (P Q R : ℤ) (pol : String) :
    ((P ≤ 0 ∨ Q ≤ 0 ∨ R ≤ 0) → ∀ eigh st,
      Solver.run geo path P Q R eigh st =
        Except.error "Truncation orders must be positive") ∧
    ((P ≤ 0 ∨ Q ≤ 0) → ∀ eigh st,
      Solver2D.run geo path2 P Q pol eigh st =
        Except.error "Truncation orders must be positive") := by
  constructor
  · intro h eigh st
    unfold Solver.run convmat
    rw [if_neg (by omega : ¬(0 < P ∧ 0 < Q ∧ 0 < R))]
    rfl
  · intro h eigh st
    unfold Solver2D.run convmat
    rw [if_neg (by omega : ¬(0 < P ∧ 0 < Q ∧ 0 < (1 : ℤ)))]
    rfl

/-- C9 amended witness: truncation order `P = 0` makes the run fail fast. -/
theorem nonpositive_orders_fail_fast_witness :
    Solver.run wGeo wPath3 0 1 1 wEigh3 (initState (3 * N3 0 1 1)) =
      Except.error "Truncation orders must be positive" :=
  (nonpositive_orders_fail_fast wGeo wPath3 wPath2 0 1 1 "TM").1 (by norm_num)
    wEigh3 (initState (3 * N3 0 1 1))

/-- C10: the result lists live in the solver state and `run()` only appends, so a
second `run()` on the same object appends a second full set: after two runs over an
`M`-sample path the sequences hold `2·M` entries (the second half repeating the
deterministic per-sample results). -/
theorem rerun_appends_second_set (geo : Geometry) {M M2 : ℕ} (path : BZPath3 M)
    (path2 : BZPath2 M2) (P Q R : ℤ) (pol : String)
    (eigh3 : Matrix (Fin (3 * N3 P Q R)) (Fin (3 * N3 P Q R)) ℚ →
      Matrix (Fin (3 * N3 P Q R)) (Fin (3 * N3 P Q R)) ℚ →
      (Fin (3 * N3 P Q R) → ℚ) × Matrix (Fin (3 * N3 P Q R)) (Fin (3 * N3 P Q R)) ℚ)
    (eigh2 : Matrix (Fin (N3 P Q 1)) (Fin (N3 P Q 1)) ℚ →
      Matrix (Fin (N3 P Q 1)) (Fin (N3 P Q 1)) ℚ →
      (Fin (N3 P Q 1) → ℚ) × Matrix (Fin (N3 P Q 1)) (Fin (N3 P Q 1)) ℚ)
    (hP : 0 < P) (hQ : 0 < Q) (hR : 0 < R)
    (hmu3 : detQ (convmatOk geo.mu_r P Q R) ≠ 0)
    (hmu2 : detQ (convmatOk geo.mu_r P Q 1) ≠ 0)
    (heps2 : detQ (convmatOk geo.eps_r P Q 1) ≠ 0) :
    (∃ st1 st2,
      Solver.run geo path P Q R eigh3 (initState (3 * N3 P Q R)) = Except.ok st1 ∧
      Solver.run geo path P Q R eigh3 st1 = Except.ok st2 ∧
      st1.wn.length = M ∧ st1.modes.length = M ∧
      st2.wn = st1.wn ++ st1.wn ∧ st2.modes = st1.modes ++ st1.modes ∧
      st2.wn.length = 2 * M ∧ st2.modes.length = 2 * M) ∧
    (∃ st1 st2,
      Solver2D.run geo path2 P Q pol eigh2 (initState (N3 P Q 1)) = Except.ok st1 ∧
      Solver2D.run geo path2 P Q pol eigh2 st1 = Except.ok st2 ∧
      st1.wn.length = M2 ∧ st1.modes.length = M2 ∧
      st2.wn = st1.wn ++ st1.wn ∧ st2.modes = st1.modes ++ st1.modes ∧
      st2.wn.length = 2 * M2 ∧ st2.modes.length = 2 * M2) := by
  constructor
  · refine ⟨_, _, run3_ok geo path P Q R eigh3 (initState (3 * N3 P Q R)) hP hQ hR hmu3,
      run3_ok geo path P Q R eigh3 _ hP hQ hR hmu3, ?_, ?_, ?_, ?_, ?_, ?_⟩ <;>
      simp [initState, two_mul]
  · refine ⟨_, _, run2_ok geo path2 P Q pol eigh2 (initState (N3 P Q 1)) hP hQ hmu2 heps2,
      run2_ok geo path2 P Q pol eigh2 _ hP hQ hmu2 heps2, ?_, ?_, ?_, ?_, ?_, ?_⟩ <;>
      simp [initState, two_mul]

/-- C10 witness: two consecutive runs of the concrete one-sample configuration. -/
theorem rerun_appends_second_set_witness :
    ∃ st1 st2,
      Solver.run wGeo wPath3 1 1 1 wEigh3 (initState (3 * N3 1 1 1)) = Except.ok st1 ∧
      Solver.run wGeo wPath3 1 1 1 wEigh3 st1 = Except.ok st2 ∧
      st1.wn.length = 1 ∧ st1.modes.length = 1 ∧
      st2.wn = st1.wn ++ st1.wn ∧ st2.modes = st1.modes ++ st1.modes ∧
      st2.wn.length = 2 * 1 ∧ st2.modes.length = 2 * 1 :=
  (rerun_appends_second_set wGeo wPath3 wPath2 1 1 1 "TM" wEigh3 wEigh2 (by norm_num)
    (by norm_num) (by norm_num) (by rw [wGeo_mu_det]; norm_num)
    (by rw [wGeo_mu_det]; norm_num) (by rw [wGeo_eps_det]; norm_num)).1
